import Mathlib

/-!
Verification of the column-reconciliation and field-inference engine of the
Data-Automation-Service repository (src/process_data.py).

Strings are modelled as lists of characters (`Str`), cells of the working
dataframe as `Option Str` (`none` models a pandas NaN cell), and a row of the
target schema as a function from the canonical `TField` type to cells.  The
regular-expression extractors are embedded as position-by-position matchers
(`pinHere`, `plusHere`, `coordHere`, `emailHere`) that reproduce the
backtracking behaviour of the corresponding Python patterns, combined with a
leftmost-first search loop (`searchWith`) reproducing `re.search`.
Character classes follow the ASCII ranges of the patterns.
-/

/-- Python strings are modelled as lists of characters. -/
abbrev Str := List Char

/-- Characters of a Lean string literal. -/
def chars (s : String) : Str := s.data

/-- Whitespace, as stripped by Python `str.strip` and matched by the regex
class `\s` (ASCII part: space, tab, LF, VT, FF, CR). -/
def wsC (c : Char) : Bool :=
  c.toNat = 32 || c.toNat = 9 || c.toNat = 10 || c.toNat = 11 ||
  c.toNat = 12 || c.toNat = 13

/-- ASCII decimal digit, the regex class `\d`. -/
def digC (c : Char) : Bool := 48 ≤ c.toNat && c.toNat ≤ 57

/-- ASCII letter. -/
def alphaC (c : Char) : Bool :=
  (65 ≤ c.toNat && c.toNat ≤ 90) || (97 ≤ c.toNat && c.toNat ≤ 122)

/-- Lowercase ASCII letter. -/
def lowAlphaC (c : Char) : Bool := 97 ≤ c.toNat && c.toNat ≤ 122

/-- Word character for the regex `\b` boundary (class `\w`): letter, digit
or underscore. -/
def wordC (c : Char) : Bool := alphaC c || digC c || c.toNat = 95

/-- Uppercase ASCII letter or digit: the class `[A-Z0-9]` of the plus-code
pattern. -/
def alnumU (c : Char) : Bool :=
  (65 ≤ c.toNat && c.toNat ≤ 90) || (48 ≤ c.toNat && c.toNat ≤ 57)

/-- `str.upper` on one character (ASCII). -/
def upChar (c : Char) : Char :=
  if 97 ≤ c.toNat && c.toNat ≤ 122 then Char.ofNat (c.toNat - 32) else c

/-- `str.lower` on one character (ASCII). -/
def lowChar (c : Char) : Char :=
  if 65 ≤ c.toNat && c.toNat ≤ 90 then Char.ofNat (c.toNat + 32) else c

/-- `str.upper`. -/
def upper (l : Str) : Str := l.map upChar

/-- `str.lower`. -/
def lower (l : Str) : Str := l.map lowChar

/-- `str.strip`. -/
def strip (l : Str) : Str :=
  ((l.dropWhile wsC).reverse.dropWhile wsC).reverse

/-- Boolean prefix test on character lists. -/
def prefixB : Str → Str → Bool
  | [], _ => true
  | _ :: _, [] => false
  | a :: as, b :: bs => a = b && prefixB as bs

/-- Boolean substring test (Python `p in l`). -/
def isSubstr (p : Str) : Str → Bool
  | [] => prefixB p []
  | c :: rest => prefixB p (c :: rest) || isSubstr p rest

/-- Python `text.split(',')`: every comma separates, fields may be empty. -/
def splitComma : Str → List Str
  | [] => [[]]
  | c :: rest =>
    if c = ',' then [] :: splitComma rest
    else
      match splitComma rest with
      | [] => [[c]]
      | h :: t => (c :: h) :: t

/-- Separator class of `re.split(r'[,\s]+', ...)`. -/
def sepC (c : Char) : Bool := c = ',' || wsC c

/-- Helper for `splitSeps`: the flag records whether we are inside a
separator run (in which case further separators are absorbed). -/
def splitSepsAux : Bool → Str → Str → List Str
  | false, cur, [] => [cur.reverse]
  | true, _, [] => [[]]
  | false, cur, c :: rest =>
    if sepC c then cur.reverse :: splitSepsAux true [] rest
    else splitSepsAux false (c :: cur) rest
  | true, _, c :: rest =>
    if sepC c then splitSepsAux true [] rest
    else splitSepsAux false [c] rest

/-- `re.split(r'[,\s]+', text)`: split on maximal runs of commas and
whitespace; a leading or trailing run produces an empty token. -/
def splitSeps (l : Str) : List Str := splitSepsAux false [] l

/-- Helper for `title`: the flag records whether the previous character was a
cased (here: ASCII letter) character. -/
def titleAux : Bool → Str → Str
  | _, [] => []
  | prevCased, c :: rest =>
    (if alphaC c then (if prevCased then lowChar c else upChar c) else c) ::
      titleAux (alphaC c) rest

/-- Python `str.title` (ASCII model): uppercase a letter that follows a
non-letter, lowercase the other letters. -/
def title (l : Str) : Str := titleAux false l

/-- A Python value passed to an extractor: either a `str` or anything else
(the extractors test `isinstance(text, str)`). -/
inductive PyVal where
  | str (s : Str)
  | nonstr
deriving DecidableEq

/-- The `\b` test between an optional previous character and the current
character: exactly one side is a word character (start of string counts as a
non-word side). -/
def bdry (prev : Option Char) (c : Char) : Bool :=
  (match prev with | none => false | some p => wordC p) != wordC c

/-- Matcher at one position for `\b[1-9]\d{5}\b` (the pincode pattern of
`extract_pincode_from_text`): six digits, the first in 1..9, delimited by
word boundaries. -/
def pinHere (prev : Option Char) (l : Str) : Option Str :=
  match l with
  | c1 :: c2 :: c3 :: c4 :: c5 :: c6 :: rest =>
    if bdry prev c1 && (49 ≤ c1.toNat && c1.toNat ≤ 57) &&
       digC c2 && digC c3 && digC c4 && digC c5 && digC c6 &&
       (match rest with | [] => true | r :: _ => !wordC r)
    then some [c1, c2, c3, c4, c5, c6] else none
  | _ => none

/-- Matcher at one position for `\b([A-Z0-9]{4,8}\+[A-Z0-9]{2,3})\b` (the
pattern of `extract_plus_code_coordinates`, applied to the uppercased text).
Greedy matching with backtracking collapses to: the maximal alphanumeric run
at the position must have length 4..8 and be followed by a plus sign, and
the maximal alphanumeric run after the plus sign must have length 2..3 and
be followed by a non-word character or the end of the text. -/
def plusHere (prev : Option Char) (l : Str) : Option Str :=
  match l with
  | [] => none
  | c0 :: _ =>
    let run1 := l.takeWhile alnumU
    if bdry prev c0 && alnumU c0 && (4 ≤ run1.length && run1.length ≤ 8) then
      match l.dropWhile alnumU with
      | '+' :: rest2 =>
        let run2 := rest2.takeWhile alnumU
        if (run2.length = 2 || run2.length = 3) &&
           (match rest2.dropWhile alnumU with
            | [] => true
            | r :: _ => !wordC r)
        then some (run1 ++ '+' :: run2) else none
      | _ => none
    else none

/-- Parse `[-+]?\d{1,maxInt}\.\d+` at the head of `l`; returns the matched
text and the remainder.  Greedy matching with backtracking collapses to: the
maximal digit run after the optional sign must have length 1..maxInt and be
followed by a dot and at least one digit. -/
def coordNum (maxInt : Nat) (l : Str) : Option (Str × Str) :=
  let sgn : Str × Str :=
    match l with
    | c :: rest => if c = '-' || c = '+' then ([c], rest) else ([], l)
    | [] => ([], [])
  let run := sgn.2.takeWhile digC
  if 1 ≤ run.length && run.length ≤ maxInt then
    match sgn.2.dropWhile digC with
    | '.' :: l3 =>
      let frac := l3.takeWhile digC
      if 1 ≤ frac.length then
        some (sgn.1 ++ run ++ '.' :: frac, l3.dropWhile digC)
      else none
    | _ => none
  else none

/-- Matcher at one position for
`([-+]?\d{1,2}\.\d+)[,\s]+([-+]?\d{1,3}\.\d+)` (the pattern of
`extract_coordinates_from_text`); returns the two groups. -/
def coordHere (_prev : Option Char) (l : Str) : Option (Str × Str) :=
  match coordNum 2 l with
  | none => none
  | some (g1, r1) =>
    let seps := r1.takeWhile sepC
    if 1 ≤ seps.length then
      match coordNum 3 (r1.dropWhile sepC) with
      | some (g2, _) => some (g1, g2)
      | none => none
    else none

/-- Local-part class `[A-Za-z0-9._%+-]` of the email pattern. -/
def emailLocalC (c : Char) : Bool :=
  alphaC c || digC c || c = '.' || c = '_' || c = '%' || c = '+' || c = '-'

/-- Domain class `[A-Za-z0-9.-]` of the email pattern. -/
def emailDomC (c : Char) : Bool := alphaC c || digC c || c = '.' || c = '-'

/-- Class `[A-Z|a-z]` of the email pattern (the bar is a literal member). -/
def emailTldC (c : Char) : Bool := alphaC c || c = '|'

/-- The `[A-Z|a-z]{2,}\b` tail of the email pattern, at the head of `l`:
greedily try the longest prefix of the class run first, backtracking until
the trailing word boundary holds.  Returns the matched tail. -/
def emailTld (l : Str) : Option Str :=
  let run := l.takeWhile emailTldC
  let rest := l.dropWhile emailTldC
  ((List.range' 2 (run.length - 1)).reverse.find? fun m =>
      match run.get? (m - 1) with
      | none => false
      | some lastc =>
        wordC lastc !=
          (match (if m < run.length then run.get? m else rest.head?) with
           | none => false
           | some nextc => wordC nextc)).map
    fun m => run.take m

/-- The `[A-Za-z0-9.-]+\.[A-Z|a-z]{2,}\b` part of the email pattern after
the at sign: the engine splits the maximal domain-class run at a dot, trying
the rightmost dot first.  Returns the matched text after the at sign. -/
def emailDomain (rest2 : Str) : Option Str :=
  let drun := rest2.takeWhile emailDomC
  (((List.range' 1 (drun.length - 1)).reverse.filterMap fun k =>
      if drun.get? k = some '.' then
        (emailTld (rest2.drop (k + 1))).map fun t => drun.take k ++ '.' :: t
      else none)).head?

/-- Matcher at one position for
`\b[A-Za-z0-9._%+-]+@[A-Za-z0-9.-]+\.[A-Z|a-z]{2,}\b` (the pattern of
`extract_email_from_text`): a leading word boundary, the maximal local run
followed by the at sign, then the domain. -/
def emailHere (prev : Option Char) (l : Str) : Option Str :=
  match l with
  | [] => none
  | c :: _ =>
    if emailLocalC c && bdry prev c then
      let loc := l.takeWhile emailLocalC
      match l.dropWhile emailLocalC with
      | '@' :: rest2 =>
        match emailDomain rest2 with
        | some dom => some (loc ++ '@' :: dom)
        | none => none
      | _ => none
    else none

/-- `re.search`: try the matcher at each position from the left, carrying
the previous character for the `\b` tests; the first success wins. -/
def searchWith {α : Type} (f : Option Char → Str → Option α) :
    Option Char → Str → Option α
  | _, [] => none
  | prev, c :: rest =>
    match f prev (c :: rest) with
    | some a => some a
    | none => searchWith f (some c) rest

/-- `extract_pincode_from_text`: first 6-digit pincode, empty string when
there is none or the input is not a string. -/
def extract_pincode_from_text : PyVal → Str
  | .nonstr => []
  | .str s => (searchWith pinHere none s).getD []

/-- `extract_plus_code_coordinates`: searches the uppercased text for a plus
code; on success returns the sentinel flag `"PLUS_CODE"` and the code. -/
def extract_plus_code_coordinates : PyVal → Str × Str
  | .nonstr => ([], [])
  | .str s =>
    match searchWith plusHere none (upper s) with
    | some code => (chars "PLUS_CODE", code)
    | none => ([], [])

/-- `extract_coordinates_from_text`: first latitude/longitude pair. -/
def extract_coordinates_from_text : PyVal → Str × Str
  | .nonstr => ([], [])
  | .str s =>
    match searchWith coordHere none s with
    | some g => g
    | none => ([], [])

/-- `extract_email_from_text`: first email token. -/
def extract_email_from_text : PyVal → Str
  | .nonstr => []
  | .str s => (searchWith emailHere none s).getD []

/-- The canonical fields of the target schema (`TARGET_COLUMNS`). -/
inductive TField where
  | category | sub_category | city | name | area | address
  | phone_no_1 | phone_no2 | source | ratings | state | country
  | email | latitude | longitude | reviews | facebook_url
  | linkdin_url | twitter_url | description | pincode
  | virtual_phone_no | whatsapp_no | phone_no_3 | avg_spent
  | cost_of_two
deriving DecidableEq

/-- `TARGET_COLUMNS`: the fixed ordered target schema. -/
def TARGET_COLUMNS : List TField :=
  [.category, .sub_category, .city, .name, .area, .address,
   .phone_no_1, .phone_no2, .source, .ratings, .state, .country,
   .email, .latitude, .longitude, .reviews, .facebook_url,
   .linkdin_url, .twitter_url, .description, .pincode,
   .virtual_phone_no, .whatsapp_no, .phone_no_3, .avg_spent,
   .cost_of_two]

/-- The alias list of `phone_no_1` in `COLUMN_ALIASES` (also used by the
second-phone special case). -/
def phone1Aliases : List Str :=
  [chars "phone", chars "mobile", chars "contact", chars "tel",
   chars "phone_number", chars "cell", chars "telephone"]

/-- `COLUMN_ALIASES`: canonical field to its ordered alias list. -/
def COLUMN_ALIASES : List (TField × List Str) :=
  [(.source, [chars "website", chars "url", chars "web_link", chars "link",
     chars "homepage"]),
   (.phone_no_1, phone1Aliases),
   (.phone_no2, [chars "phone2", chars "mobile2", chars "alternate_phone",
     chars "secondary_phone"]),
   (.name, [chars "name", chars "business_name", chars "title",
     chars "company_name", chars "store_name"]),
   (.address, [chars "address", chars "location", chars "full_address",
     chars "street", chars "addr"]),
   (.ratings, [chars "rating", chars "stars", chars "review_score",
     chars "avg_rating", chars "reviews_average"]),
   (.reviews, [chars "review_count", chars "total_reviews",
     chars "number_of_reviews", chars "reviews_count"]),
   (.category, [chars "category", chars "type", chars "business_type"]),
   (.sub_category, [chars "subcategory", chars "sub_category",
     chars "sub_type", chars "subtype"]),
   (.city, [chars "city", chars "town", chars "district"]),
   (.state, [chars "state", chars "province", chars "statename"]),
   (.area, [chars "area", chars "locality", chars "neighborhood",
     chars "region"]),
   (.latitude, [chars "latitude", chars "lat"]),
   (.longitude, [chars "longitude", chars "lng", chars "long"]),
   (.email, [chars "email", chars "e-mail", chars "mail",
     chars "contact_email"]),
   (.pincode, [chars "pincode", chars "pin", chars "postal_code",
     chars "zip"])]

/-- Step 1 of `smart_map_columns`, inner loop: scan the alias list in
priority order; for each alias take the first source column whose
lowercased, stripped name equals it; claim it unless already claimed (an
already-claimed first match does not fall through to later columns of the
same alias, matching `matches[0]` in the code). -/
def findAliasCol (cols used : List Str) : List Str → Option Str
  | [] => none
  | a :: rest =>
    match cols.filter (fun c => strip (lower c) = strip (lower a)) with
    | [] => findAliasCol cols used rest
    | m :: _ => if m ∈ used then findAliasCol cols used rest else some m

/-- Step 1 of `smart_map_columns`, outer loop: greedily bind canonical
fields to source columns in the declared order, never reusing a claimed
column.  Returns the list of (target, source column) bindings. -/
def directBindingsAux (cols : List Str) :
    List (TField × List Str) → List Str → List (TField × Str)
  | [], _ => []
  | (target, aliases) :: rest, used =>
    match findAliasCol cols used aliases with
    | none => directBindingsAux cols rest used
    | some m => (target, m) :: directBindingsAux cols rest (m :: used)

/-- The bindings produced by the alias-matching step for a given list of
source columns. -/
def directBindings (cols : List Str) : List (TField × Str) :=
  directBindingsAux cols COLUMN_ALIASES []

/-- First binding of a target field, if any. -/
def lookupBinding : List (TField × Str) → TField → Option Str
  | [], _ => none
  | (t, c) :: rest, f => if t = f then some c else lookupBinding rest f

/-- Step 2 of `smart_map_columns`: the source columns whose lowercased name
contains a `phone_no_1` alias as a substring, in source column order. -/
def phoneCols (cols : List Str) : List Str :=
  cols.filter fun c => phone1Aliases.any fun a => isSubstr a (lower c)

/-- `.astype(str).replace('nan', '').replace('NaN', '')` on one cell. -/
def replNanNaN (v : Str) : Str :=
  if v = chars "nan" then [] else if v = chars "NaN" then [] else v

/-- The cell of the mapped dataframe for one target field after steps 1-3
of `smart_map_columns`: the second-phone special case overrides any
`phone_no2` alias binding whenever at least two source columns match the
phone alias set; `country` is the constant `"India"`; unbound fields stay
NaN (`none`). -/
def mappedCell (cols : List Str) (row : Str → Str) (t : TField) : Option Str :=
  if t = .country then some (chars "India")
  else
    match t, phoneCols cols with
    | .phone_no2, _ :: c2 :: _ => some (replNanNaN (row c2))
    | _, _ =>
      match lookupBinding (directBindings cols) t with
      | some c => some (replNanNaN (row c))
      | none => none

/-- One record of the pincode reference index. -/
structure RefRecord where
  district : Str
  statename : Str
  latitude : Str
  longitude : Str
deriving DecidableEq

/-- The `PincodeResolver` state: the pincode lookup (as an association list
whose earliest entry wins) and the derived city/state name sets. -/
structure Resolver where
  table : List (Str × RefRecord)
  city_set : List Str
  state_set : List Str

/-- First association for a key, mirroring dictionary lookup. -/
def assocFind : List (Str × RefRecord) → Str → Option RefRecord
  | [], _ => none
  | (k, v) :: rest, key => if k = key then some v else assocFind rest key

/-- `PincodeResolver.get_info`: look up `str(pincode).strip()`. -/
def Resolver.get_info (res : Resolver) (pin : Str) : Option RefRecord :=
  assocFind res.table (strip pin)

/-- A row of the reference CSV after stringified reading: `none` pincode
models a NaN cell (dropped by `dropna`). -/
structure RefRow where
  pincode : Option Str
  district : Str
  statename : Str
  latitude : Str
  longitude : Str

/-- The record stored for a reference row. -/
def RefRow.record (row : RefRow) : RefRecord :=
  ⟨row.district, row.statename, row.latitude, row.longitude⟩

/-- The loop of `PincodeResolver.__init__` over the reference rows: strip
the pincode, drop missing pincodes, and insert a record only when the
(stripped) pincode is not yet present. -/
def buildAux (acc : List (Str × RefRecord)) : List RefRow → List (Str × RefRecord)
  | [] => acc
  | row :: rest =>
    match row.pincode with
    | none => buildAux acc rest
    | some p =>
      if (assocFind acc (strip p)).isSome then buildAux acc rest
      else buildAux (acc ++ [(strip p, row.record)]) rest

/-- The pincode lookup built by `PincodeResolver.__init__`. -/
def buildLookup (rows : List RefRow) : List (Str × RefRecord) :=
  buildAux [] rows

/-- Result record of `parse_address_smart`. -/
structure Parsed where
  city : Str
  state : Str
  pincode : Str
  area : Str
deriving DecidableEq

/-- Steps 2 and 3 of `parse_address_smart`: scan the comma/whitespace-split
lowercased tokens against the state-name set then the city-name set
(title-casing the first hit of each), and take the first non-empty stripped
comma segment as the area. -/
def parseTail (res : Resolver) (text : Str) (pin : Str) : Parsed :=
  let words := splitSeps (lower text)
  let st := match words.find? (fun w => w ∈ res.state_set) with
            | some w => title w
            | none => []
  let ci := match words.find? (fun w => w ∈ res.city_set) with
            | some w => title w
            | none => []
  let parts := ((splitComma text).map strip).filter (fun p => p ≠ [])
  let ar := match parts with
            | p :: _ => p
            | [] => []
  ⟨ci, st, pin, ar⟩

/-- `parse_address_smart` on a string input: extract a pincode first; if the
reference index resolves it, return its district/statename directly (with
empty area); otherwise fall back to token and segment scanning. -/
def parse_address_smart (res : Resolver) (addr : Str) : Parsed :=
  if strip addr = [] then ⟨[], [], [], []⟩
  else
    let text := strip addr
    match searchWith pinHere none text with
    | some pin =>
      match res.get_info pin with
      | some info => ⟨info.district, info.statename, pin, []⟩
      | none => parseTail res text pin
    | none => parseTail res text []

/-- A row of the mapped dataframe: one optional string cell per target
field (`none` is a NaN cell). -/
def Row := TField → Option Str

/-- `mapped_data.loc[i, g] = v`. -/
def setF (r : Row) (g : TField) (v : Str) : Row :=
  fun f => if f = g then some v else r f

/-- `str(cell)`: a NaN cell prints as `"nan"`. -/
def cellStr (c : Option Str) : Str :=
  match c with
  | some v => v
  | none => chars "nan"

/-- The emptiness test applied to already-stripped values throughout
`smart_map_columns`: `not s or s in ['nan', 'NaN', '', 'None']`. -/
def emptyS (s : Str) : Bool :=
  s = [] || s = chars "nan" || s = chars "NaN" || s = chars "None"

/-- Pincode part of step 4 of `smart_map_columns`, one row: extract a
pincode from the address only when the pincode field is empty. -/
def step4a (r : Row) (addr : Str) : Row :=
  if emptyS (strip (cellStr (r .pincode))) then
    match searchWith pinHere none addr with
    | some p => setF r .pincode p
    | none => r
  else r

/-- Address-decomposition part of step 4 of `smart_map_columns`, one row:
when city or state is empty, parse the address and fill empty city, state
and area from the parse result. -/
def step4b (res : Resolver) (r1 : Row) (addr : Str) : Row :=
  let needCity := emptyS (strip (cellStr (r1 .city)))
  let needState := emptyS (strip (cellStr (r1 .state)))
  if needCity || needState then
    let parsed := parse_address_smart res addr
    let r2 := if needCity && parsed.city ≠ [] then setF r1 .city parsed.city else r1
    let r3 := if needState && parsed.state ≠ [] then setF r2 .state parsed.state else r2
    if emptyS (strip (cellStr (r3 .area))) && parsed.area ≠ [] then
      setF r3 .area parsed.area
    else r3
  else r1

/-- Step 4 of `smart_map_columns`, one row: extract a pincode from the
address if the pincode field is empty, and decompose the address into
city/state (and area, if empty) when city or state is empty.  The guard on
the address cell is the literal one of the code (it does not exclude the
string `"None"`). -/
def step4 (res : Resolver) (r : Row) : Row :=
  match r .address with
  | none => r
  | some addr =>
    if strip addr = [] || addr = chars "nan" || addr = chars "NaN" || addr = [] then r
    else step4b res (step4a r addr) addr

/-- Step 5 of `smart_map_columns`, one row: fill empty latitude/longitude
from the pincode record, only from record values that are not nan-like. -/
def step5 (res : Resolver) (r : Row) : Row :=
  let pin := strip (cellStr (r .pincode))
  let needLat := emptyS (strip (cellStr (r .latitude)))
  let needLon := emptyS (strip (cellStr (r .longitude)))
  if !needLat && !needLon then r
  else if !emptyS pin then
    match res.get_info pin with
    | some info =>
      let r1 := if needLat && !emptyS info.latitude then setF r .latitude info.latitude else r
      if needLon && !emptyS info.longitude then setF r1 .longitude info.longitude else r1
    | none => r
  else r

/-- Step 6 of `smart_map_columns`, one row: when the stripped area carries a
plus code, store a note in the description (overwriting the description
cell with the stripped old value plus the note when it was non-empty). -/
def step6 (r : Row) : Row :=
  let area := strip (cellStr (r .area))
  if !emptyS area then
    match extract_plus_code_coordinates (.str area) with
    | (flag, code) =>
      if flag = chars "PLUS_CODE" then
        let desc := strip (cellStr (r .description))
        if emptyS desc then setF r .description (chars "Google Plus Code: " ++ code)
        else setF r .description (desc ++ chars " | Plus Code: " ++ code)
      else r
  else r

/-- Step 7 of `smart_map_columns`, one row: when latitude or longitude is
still empty, extract a coordinate pair from the source field and fill the
empty ones. -/
def step7 (r : Row) : Row :=
  let needLat := emptyS (strip (cellStr (r .latitude)))
  let needLon := emptyS (strip (cellStr (r .longitude)))
  if needLat || needLon then
    let src := strip (cellStr (r .source))
    if !emptyS src then
      match extract_coordinates_from_text (.str src) with
      | (la, lo) =>
        if la ≠ [] && lo ≠ [] then
          let r1 := if needLat then setF r .latitude la else r
          if needLon then setF r1 .longitude lo else r1
        else r
    else r
  else r

/-- One candidate field of step 8: a non-nan-like stripped value whose
email extraction succeeds. -/
def tryEmail (r : Row) (f : TField) : Option Str :=
  let v := strip (cellStr (r f))
  if !emptyS v then
    match extract_email_from_text (.str v) with
    | [] => none
    | e => some e
  else none

/-- Step 8 of `smart_map_columns`, one row: when the email field is empty,
scan address, then description, then source, stopping at the first hit. -/
def step8 (r : Row) : Row :=
  if emptyS (strip (cellStr (r .email))) then
    match tryEmail r .address with
    | some e => setF r .email e
    | none =>
      match tryEmail r .description with
      | some e => setF r .email e
      | none =>
        match tryEmail r .source with
        | some e => setF r .email e
        | none => r
  else r

/-- All enrichment passes of `smart_map_columns` (steps 4-8) on one row, in
program order. -/
def enrichRow (res : Resolver) (r : Row) : Row :=
  step8 (step7 (step6 (step5 res (step4 res r))))

/-- The finalization `replace(['nan', 'NaN', 'None'], '')` on one cell. -/
def finCell : Option Str → Option Str
  | none => none
  | some v =>
    if v = chars "nan" || v = chars "NaN" || v = chars "None" then some []
    else some v

/-- Finalization on one row. -/
def finalizeRow (r : Row) : Row := fun f => finCell (r f)

/-- Finalization on a whole table. -/
def finalizeTable (t : List Row) : List Row := t.map finalizeRow

/-- A resolver with an unreadable reference file: empty index. -/
def emptyRes : Resolver := ⟨[], [], []⟩

/-- The character preceding position `i`, used for the `\b` tests of a
match attempt at `i`. -/
def prevAt (l : Str) (i : Nat) : Option Char :=
  if i = 0 then none else l.get? (i - 1)

/-- The result of attempting matcher `f` at position `i` of `l`. -/
def matchAt {α : Type} (f : Option Char → Str → Option α) (l : Str) (i : Nat) :
    Option α :=
  f (prevAt l i) (l.drop i)

/-- `r` is the leftmost match of matcher `f` on `l`: either no position
matches and `r` is absent, or `r` is the match at some position before
which no position matches. -/
def FirstMatch {α : Type} (f : Option Char → Str → Option α) (l : Str)
    (r : Option α) : Prop :=
  (r = none ∧ ∀ i, matchAt f l i = none) ∨
  (∃ i a, r = some a ∧ matchAt f l i = some a ∧ ∀ j < i, matchAt f l j = none)

/-- Head of a list of strings (first comma segment). -/
def headStr : List Str → Str
  | [] => []
  | h :: _ => h

/-- Reference index for the pincode round-trip scenario: maps 560001 to
Bangalore, Karnataka. -/
def res5 : Resolver :=
  ⟨[(chars "560001",
     ⟨chars "Bangalore", chars "Karnataka", chars "12.97", chars "77.59"⟩)],
   [], []⟩

/-- Input row for the pincode round-trip scenario: only an address. -/
def row5 : Row := fun f =>
  if f = .address then some (chars "12, MG Road, Bangalore 560001") else none

/-- Row with a plus code in the area and a non-empty description. -/
def rowPlusDesc : Row := fun f =>
  if f = .area then some (chars "R9P7+8RC")
  else if f = .description then some (chars "Note") else none

/-- Row with a plus code in the area and a non-empty description (variant
used for the plus-code pass counterexample). -/
def rowPlusDescX : Row := fun f =>
  if f = .area then some (chars "R9P7+8RC")
  else if f = .description then some (chars "X") else none

/-- Row with a plus code in the area and an empty description. -/
def rowPlusEmpty : Row := fun f =>
  if f = .area then some (chars "R9P7+8RC") else none

/-- Row with an address and already-populated city and state. -/
def rowCityState : Row := fun f =>
  if f = .address then some (chars "Foo, Bar")
  else if f = .city then some (chars "Delhi")
  else if f = .state then some (chars "Goa") else none

/-- Row with only an address. -/
def rowAddrOnly : Row := fun f =>
  if f = .address then some (chars "Foo, Bar") else none

/-- Row with only a city. -/
def rowCityOnly : Row := fun f =>
  if f = .city then some (chars "Bonn") else none

/-- Source columns for the alias-priority scenario. -/
def colsPhoneMobile : List Str := [chars "Phone", chars "Mobile"]

/-- Source columns for the double-consumption scenario. -/
def colsContactPhone : List Str := [chars "Contact", chars "Phone"]

/-- Concrete source row distinguishing the Phone column from the others. -/
def rowFnPhone : Str → Str := fun c =>
  if c = chars "Phone" then chars "111" else chars "222"

/-- The find predicate on reference rows: the stripped pincode equals the
key. -/
def refKeyIs (k : Str) (row : RefRow) : Bool :=
  match row.pincode with
  | some p => decide (strip p = k)
  | none => false

/-- Reference table with a duplicated pincode and different districts. -/
def dupRefRows : List RefRow :=
  [⟨some (chars "560001"), chars "Bangalore North", chars "Karnataka",
    chars "13.0", chars "77.6"⟩,
   ⟨some (chars "560001"), chars "Bangalore South", chars "Karnataka",
    chars "12.9", chars "77.5"⟩]

example : extract_pincode_from_text (.str (chars "12, MG Road, Bangalore 560001")) = chars "560001" := by decide
example : extract_pincode_from_text (.str (chars "1234567")) = [] := by decide
example : extract_plus_code_coordinates (.str (chars "R9P7+8RC")) = (chars "PLUS_CODE", chars "R9P7+8RC") := by decide
example : extract_plus_code_coordinates (.str (chars "r9p7+8rc")) = (chars "PLUS_CODE", chars "R9P7+8RC") := by decide
example : extract_plus_code_coordinates (.str (chars "AB12CD34EF+22")) = ([], []) := by decide
example : extract_plus_code_coordinates (.str (chars "R9P7+8RCX2")) = ([], []) := by decide
example : extract_coordinates_from_text (.str (chars "Find us @12.9716,77.5946")) = (chars "12.9716", chars "77.5946") := by decide
example : extract_coordinates_from_text (.str (chars "123.456,78.9")) = (chars "23.456", chars "78.9") := by decide
example : extract_coordinates_from_text (.str (chars "1.2, 3456.7")) = ([], []) := by decide
example : extract_email_from_text (.str (chars "contact a.b@mail.co.in now")) = chars "a.b@mail.co.in" := by decide
example : extract_email_from_text (.str (chars "a@b.cd.e")) = chars "a@b.cd" := by decide
example : extract_email_from_text (.str (chars "foo@bar.co|m!")) = chars "foo@bar.co|m" := by decide
example : extract_email_from_text (.str (chars "a@b.abc123")) = [] := by decide
example : lookupBinding (directBindings [chars "Phone", chars "Mobile"]) .phone_no_1 = some (chars "Phone") := by decide
example : lookupBinding (directBindings [chars "Phone", chars "Mobile"]) .phone_no2 = none := by decide
example : phoneCols [chars "Phone", chars "Mobile"] = [chars "Phone", chars "Mobile"] := by decide
example : lookupBinding (directBindings [chars "Contact", chars "Phone"]) .phone_no_1 = some (chars "Phone") := by decide
example : phoneCols [chars "Contact", chars "Phone"] = [chars "Contact", chars "Phone"] := by decide
example : mappedCell [chars "Contact", chars "Phone"] (fun c => if c = chars "Phone" then chars "111" else chars "222") .phone_no2 = some (chars "111") := by decide
example : mappedCell [chars "LATITUDE"] (fun _ => chars "9.9") .latitude = some (chars "9.9") := by decide

example : enrichRow res5 row5 .pincode = some (chars "560001") := by decide
example : enrichRow res5 row5 .city = some (chars "Bangalore") := by decide
example : enrichRow res5 row5 .state = some (chars "Karnataka") := by decide
example : enrichRow res5 row5 .latitude = some (chars "12.97") := by decide
example : step4 emptyRes row5 .pincode = some (chars "560001") := by decide
example : enrichRow emptyRes rowPlusDesc .description = some (chars "Note | Plus Code: R9P7+8RC") := by decide
example : enrichRow emptyRes rowPlusDesc .latitude = none := by decide
example : step4 emptyRes rowCityState .area = none := by decide
example : step4 emptyRes rowAddrOnly .area = some (chars "Foo") := by decide
example : step4 emptyRes rowAddrOnly .city = none := by decide

theorem setF_eval (r : Row) (g : TField) (v : Str) (f : TField) :
    setF r g v f = if f = g then some v else r f := rfl

theorem setF_ne (r : Row) (g : TField) (v : Str) (f : TField) (h : f ≠ g) :
    setF r g v f = r f := by
  simp [setF, h]

theorem ite_row (c : Prop) [Decidable c] (a b : Row) (f : TField) :
    (if c then a else b) f = if c then a f else b f :=
  apply_ite (fun ρ : Row => ρ f) c a b

theorem step4a_ne (r : Row) (addr : Str) (f : TField) (hf : f ≠ .pincode) :
    step4a r addr f = r f := by
  unfold step4a
  split
  · cases searchWith pinHere none addr with
    | some p => exact setF_ne _ _ _ _ hf
    | none => rfl
  · rfl

theorem step4a_pin (r : Row) (addr : Str)
    (h : emptyS (strip (cellStr (r .pincode))) = false) :
    step4a r addr .pincode = r .pincode := by
  simp [step4a, h]

theorem step4b_ne (res : Resolver) (r1 : Row) (addr : Str) (f : TField)
    (h1 : f ≠ .city) (h2 : f ≠ .state) (h3 : f ≠ .area) :
    step4b res r1 addr f = r1 f := by
  simp only [step4b, ite_row, setF_eval, if_neg h1, if_neg h2, if_neg h3]
  simp only [ite_self]

theorem step4b_city (res : Resolver) (r1 : Row) (addr : Str)
    (h : emptyS (strip (cellStr (r1 .city))) = false) :
    step4b res r1 addr .city = r1 .city := by
  simp [step4b, ite_row, setF_eval, h]

theorem step4b_state (res : Resolver) (r1 : Row) (addr : Str)
    (h : emptyS (strip (cellStr (r1 .state))) = false) :
    step4b res r1 addr .state = r1 .state := by
  simp [step4b, ite_row, setF_eval, h]

theorem step4b_area (res : Resolver) (r1 : Row) (addr : Str)
    (h : emptyS (strip (cellStr (r1 .area))) = false) :
    step4b res r1 addr .area = r1 .area := by
  simp [step4b, ite_row, setF_eval, h]

theorem step4_pres (res : Resolver) (r : Row) (f : TField)
    (h : emptyS (strip (cellStr (r f))) = false) :
    step4 res r f = r f := by
  unfold step4
  cases haddr : r .address with
  | none => rfl
  | some addr =>
    dsimp only
    rw [ite_row]
    split
    · rfl
    · by_cases hpin : f = .pincode
      · subst hpin
        rw [step4b_ne res _ addr _ (by simp) (by simp) (by simp),
          step4a_pin r addr h]
      · by_cases hc : f = .city
        · subst hc
          have e : step4a r addr .city = r .city := step4a_ne _ _ _ (by simp)
          rw [step4b_city _ _ _ (by rw [e]; exact h), e]
        · by_cases hs : f = .state
          · subst hs
            have e : step4a r addr .state = r .state := step4a_ne _ _ _ (by simp)
            rw [step4b_state _ _ _ (by rw [e]; exact h), e]
          · by_cases ha : f = .area
            · subst ha
              have e : step4a r addr .area = r .area := step4a_ne _ _ _ (by simp)
              rw [step4b_area _ _ _ (by rw [e]; exact h), e]
            · rw [step4b_ne _ _ _ _ hc hs ha, step4a_ne _ _ _ hpin]

theorem step5_pres (res : Resolver) (r : Row) (f : TField)
    (h : emptyS (strip (cellStr (r f))) = false) :
    step5 res r f = r f := by
  unfold step5
  cases hg : Resolver.get_info res (strip (cellStr (r .pincode))) with
  | none => simp [ite_row]
  | some info =>
    by_cases hlat : f = .latitude
    · subst hlat
      simp [ite_row, setF_eval, h]
    · by_cases hlon : f = .longitude
      · subst hlon
        simp [ite_row, setF_eval, h]
      · simp [ite_row, setF_eval, if_neg hlat, if_neg hlon]

theorem step6_ne (r : Row) (f : TField) (h : f ≠ .description) :
    step6 r f = r f := by
  simp [step6, ite_row, setF_eval, if_neg h]

theorem step7_pres (r : Row) (f : TField)
    (h : emptyS (strip (cellStr (r f))) = false) :
    step7 r f = r f := by
  unfold step7
  by_cases hlat : f = .latitude
  · subst hlat
    simp [ite_row, setF_eval, h]
  · by_cases hlon : f = .longitude
    · subst hlon
      simp [ite_row, setF_eval, h]
    · simp [ite_row, setF_eval, if_neg hlat, if_neg hlon]

theorem step8_pres (r : Row) (f : TField)
    (h : emptyS (strip (cellStr (r f))) = false) :
    step8 r f = r f := by
  unfold step8
  by_cases hm : f = .email
  · subst hm
    simp [h]
  · cases tryEmail r .address with
    | some e => simp [ite_row, setF_eval, if_neg hm]
    | none =>
      cases tryEmail r .description with
      | some e => simp [ite_row, setF_eval, if_neg hm]
      | none =>
        cases tryEmail r .source with
        | some e => simp [ite_row, setF_eval, if_neg hm]
        | none => simp [ite_row]

theorem enrichRow_pres (res : Resolver) (r : Row) (f : TField)
    (hdesc : f ≠ .description)
    (h : emptyS (strip (cellStr (r f))) = false) :
    enrichRow res r f = r f := by
  unfold enrichRow
  have e4 : step4 res r f = r f := step4_pres res r f h
  have h4 : emptyS (strip (cellStr (step4 res r f))) = false := by rw [e4]; exact h
  have e5 : step5 res (step4 res r) f = step4 res r f := step5_pres res _ f h4
  have h5 : emptyS (strip (cellStr (step5 res (step4 res r) f))) = false := by
    rw [e5]; exact h4
  have e6 : step6 (step5 res (step4 res r)) f = step5 res (step4 res r) f :=
    step6_ne _ f hdesc
  have h6 : emptyS (strip (cellStr (step6 (step5 res (step4 res r)) f))) = false := by
    rw [e6]; exact h5
  have e7 : step7 (step6 (step5 res (step4 res r))) f
      = step6 (step5 res (step4 res r)) f := step7_pres _ f h6
  have h7 : emptyS (strip (cellStr (step7 (step6 (step5 res (step4 res r))) f))) = false := by
    rw [e7]; exact h6
  have e8 : step8 (step7 (step6 (step5 res (step4 res r)))) f
      = step7 (step6 (step5 res (step4 res r))) f := step8_pres _ f h7
  rw [e8, e7, e6, e5, e4]

/-- Claim C1 (corrected).  A target field that is non-empty per the
emptiness rule before enrichment is preserved by the pincode-extraction,
address-decomposition, pincode-coordinate, URL-coordinate and email passes;
the Plus-Code flagging pass preserves every such field except
`description`, which it may rewrite (appending the plus-code note).  Hence
the whole enrichment preserves every non-empty field other than
`description`. -/
theorem c1_nonDestructiveEnrichment (res : Resolver) (r : Row) (f : TField)
    (h : emptyS (strip (cellStr (r f))) = false) :
    (f ≠ .description → enrichRow res r f = r f ∧ step6 r f = r f) ∧
    step4 res r f = r f ∧ step5 res r f = r f ∧
    step7 r f = r f ∧ step8 r f = r f :=
  ⟨fun hd => ⟨enrichRow_pres res r f hd h, step6_ne r f hd⟩,
   step4_pres res r f h, step5_pres res r f h,
   step7_pres r f h, step8_pres r f h⟩

/-- Claim C1, counterexample: a row whose description is non-empty and
whose area holds a plus code has its description altered by enrichment
(the Plus-Code flagging pass appends a note), so no pass may be claimed
non-destructive for every target field. -/
theorem c1_counterexample :
    emptyS (strip (cellStr (rowPlusDesc .description))) = false ∧
    enrichRow emptyRes rowPlusDesc .description ≠ rowPlusDesc .description := by
  exact ⟨by decide, by decide⟩

/-- Claim C1, witness: the amended theorem applied to a concrete row whose
city is non-empty. -/
theorem c1_witness :
    emptyS (strip (cellStr (rowCityOnly .city))) = false ∧
    enrichRow emptyRes rowCityOnly .city = rowCityOnly .city :=
  ⟨by decide,
   ((c1_nonDestructiveEnrichment emptyRes rowCityOnly .city (by decide)).1
     (by decide)).1⟩

theorem searchWith_rel {α : Type} (f : Option Char → Str → Option α)
    (hnil : ∀ p, f p [] = none) (l : Str) : ∀ prev : Option Char,
    (searchWith f prev l = none ∧
      ∀ i, f (if i = 0 then prev else l.get? (i - 1)) (l.drop i) = none) ∨
    (∃ i a, searchWith f prev l = some a ∧
      f (if i = 0 then prev else l.get? (i - 1)) (l.drop i) = some a ∧
      ∀ j, j < i → f (if j = 0 then prev else l.get? (j - 1)) (l.drop j) = none) := by
  induction l with
  | nil =>
    intro prev
    exact Or.inl ⟨rfl, fun i => by rw [List.drop_nil]; exact hnil _⟩
  | cons c rest ih =>
    intro prev
    have key : ∀ i, f (if i + 1 = 0 then prev else (c :: rest).get? (i + 1 - 1))
        ((c :: rest).drop (i + 1))
        = f (if i = 0 then some c else rest.get? (i - 1)) (rest.drop i) := by
      intro i
      cases i <;> rfl
    cases h : f prev (c :: rest) with
    | some a =>
      refine Or.inr ⟨0, a, ?_, ?_, ?_⟩
      · simp [searchWith, h]
      · simpa using h
      · intro j hj
        exact absurd hj (Nat.not_lt_zero j)
    | none =>
      have hstep : searchWith f prev (c :: rest) = searchWith f (some c) rest := by
        simp [searchWith, h]
      rcases ih (some c) with ⟨hn, hall⟩ | ⟨i, a, hs, hm, hless⟩
      · refine Or.inl ⟨hstep.trans hn, ?_⟩
        intro i
        cases i with
        | zero => simpa using h
        | succ k => rw [key k]; exact hall k
      · refine Or.inr ⟨i + 1, a, hstep.trans hs, ?_, ?_⟩
        · rw [key i]; exact hm
        · intro j hj
          cases j with
          | zero => simpa using h
          | succ k => rw [key k]; exact hless k (Nat.lt_of_succ_lt_succ hj)

theorem searchWith_firstMatch {α : Type} (f : Option Char → Str → Option α)
    (hnil : ∀ p, f p [] = none) (l : Str) :
    FirstMatch f l (searchWith f none l) := by
  have h := searchWith_rel f hnil l none
  simpa [FirstMatch, matchAt, prevAt] using h

/-- Claim C7 (confirmed).  The four extractors are total Lean functions (so
they cannot raise); each returns its declared empty result on non-string
input, and on string input each equals the leftmost-first search of its
pattern matcher (`FirstMatch`: either no position matches and the result is
empty, or the result is the match at the first matching position).  For the
plus-code extractor the pattern is applied to the uppercased text, exactly
as in the code. -/
theorem c7_extractorsTotalLeftmost :
    (extract_pincode_from_text .nonstr = [] ∧
     extract_plus_code_coordinates .nonstr = ([], []) ∧
     extract_coordinates_from_text .nonstr = ([], []) ∧
     extract_email_from_text .nonstr = []) ∧
    (∀ s : Str, FirstMatch pinHere s (searchWith pinHere none s) ∧
      extract_pincode_from_text (.str s) = (searchWith pinHere none s).getD []) ∧
    (∀ s : Str, FirstMatch plusHere (upper s) (searchWith plusHere none (upper s)) ∧
      extract_plus_code_coordinates (.str s) =
        (match searchWith plusHere none (upper s) with
         | some code => (chars "PLUS_CODE", code)
         | none => ([], []))) ∧
    (∀ s : Str, FirstMatch coordHere s (searchWith coordHere none s) ∧
      extract_coordinates_from_text (.str s) =
        (match searchWith coordHere none s with
         | some g => g
         | none => ([], []))) ∧
    (∀ s : Str, FirstMatch emailHere s (searchWith emailHere none s) ∧
      extract_email_from_text (.str s) = (searchWith emailHere none s).getD []) := by
  refine ⟨⟨rfl, rfl, rfl, rfl⟩, ?_, ?_, ?_, ?_⟩ <;> intro s
  · exact ⟨searchWith_firstMatch pinHere (fun p => rfl) s, rfl⟩
  · exact ⟨searchWith_firstMatch plusHere (fun p => rfl) (upper s), rfl⟩
  · exact ⟨searchWith_firstMatch coordHere (fun p => rfl) s, rfl⟩
  · exact ⟨searchWith_firstMatch emailHere (fun p => rfl) s, rfl⟩

theorem finCell_idem (c : Option Str) : finCell (finCell c) = finCell c := by
  cases c with
  | none => rfl
  | some v =>
    by_cases h : (decide (v = chars "nan") || decide (v = chars "NaN") ||
        decide (v = chars "None")) = true
    · have h1 : finCell (some v) = some [] := by
        simp only [finCell]
        rw [if_pos h]
      rw [h1]
      decide
    · have h1 : finCell (some v) = some v := by
        simp only [finCell]
        rw [if_neg h]
      rw [h1, h1]

/-- Claim C9 (confirmed).  The finalization that replaces the nan-like
sentinel strings by the empty string across every cell is idempotent on
whole tables. -/
theorem c9_finalizeIdempotent (t : List Row) :
    finalizeTable (finalizeTable t) = finalizeTable t := by
  have hrow : finalizeRow ∘ finalizeRow = finalizeRow := by
    funext r f
    exact finCell_idem (r f)
  unfold finalizeTable
  rw [List.map_map, hrow]

theorem assocFind_append (acc : List (Str × RefRecord)) (k p : Str) (v : RefRecord) :
    assocFind (acc ++ [(p, v)]) k =
      match assocFind acc k with
      | some w => some w
      | none => if p = k then some v else none := by
  induction acc with
  | nil => rfl
  | cons hd tl ih =>
    obtain ⟨k', v'⟩ := hd
    simp only [List.cons_append, assocFind]
    split
    · rfl
    · exact ih

theorem buildAux_find (k : Str) : ∀ (rows : List RefRow) (acc : List (Str × RefRecord)),
    assocFind (buildAux acc rows) k =
      match assocFind acc k with
      | some v => some v
      | none => (rows.find? (refKeyIs k)).map RefRow.record := by
  intro rows
  induction rows with
  | nil =>
    intro acc
    simp only [buildAux, List.find?_nil, Option.map_none']
    cases assocFind acc k <;> rfl
  | cons row rest ih =>
    intro acc
    cases hp : row.pincode with
    | none =>
      simp only [buildAux, hp]
      rw [ih acc]
      have hpred : refKeyIs k row = false := by simp [refKeyIs, hp]
      rw [List.find?_cons_of_neg _ (by simp [hpred])]
    | some p =>
      simp only [buildAux, hp]
      by_cases hs : (assocFind acc (strip p)).isSome = true
      · rw [if_pos hs, ih acc]
        obtain ⟨w, hw⟩ := Option.isSome_iff_exists.mp hs
        by_cases hk : strip p = k
        · subst hk
          rw [hw]
        · have hpred : refKeyIs k row = false := by simp [refKeyIs, hp, hk]
          rw [List.find?_cons_of_neg _ (by simp [hpred])]
      · rw [if_neg hs]
        have hacc : assocFind acc (strip p) = none := by
          cases h2 : assocFind acc (strip p)
          · rfl
          · rw [h2] at hs
            simp at hs
        rw [ih (acc ++ [(strip p, row.record)]), assocFind_append]
        by_cases hk : strip p = k
        · subst hk
          rw [hacc]
          have hpred : refKeyIs (strip p) row = true := by simp [refKeyIs, hp]
          rw [List.find?_cons_of_pos _ hpred]
          simp
        · have hpred : refKeyIs k row = false := by simp [refKeyIs, hp, hk]
          rw [List.find?_cons_of_neg _ (by simp [hpred])]
          cases assocFind acc k with
          | some w => rfl
          | none => simp [if_neg hk]

/-- Claim C8 (confirmed).  The lookup built from the reference table maps
every key to the record of the first row whose stripped pincode equals it
(rows without a pincode are dropped): later duplicate rows never change the
stored record.  The second conjunct instantiates this on a table with a
duplicated pincode and different districts: the first-encountered record is
retained. -/
theorem c8_firstWriteWins :
    (∀ (rows : List RefRow) (k : Str),
      assocFind (buildLookup rows) k =
        (rows.find? (refKeyIs k)).map RefRow.record) ∧
    assocFind (buildLookup dupRefRows) (chars "560001") =
      some ⟨chars "Bangalore North", chars "Karnataka", chars "13.0", chars "77.6"⟩ := by
  constructor
  · intro rows k
    have h := buildAux_find k rows []
    simpa [buildLookup, assocFind] using h
  · decide

theorem findAliasCol_not_used (cols used : List Str) :
    ∀ aliases m, findAliasCol cols used aliases = some m → m ∉ used := by
  intro aliases
  induction aliases with
  | nil =>
    intro m h
    simp [findAliasCol] at h
  | cons a rest ih =>
    intro m h
    simp only [findAliasCol] at h
    split at h
    · exact ih m h
    · split at h
      · exact ih m h
      · rename_i hm
        cases h
        exact hm

theorem directBindingsAux_nodup (cols : List Str) :
    ∀ (tab : List (TField × List Str)) (used : List Str),
    ((directBindingsAux cols tab used).map Prod.snd).Nodup ∧
    ∀ b ∈ directBindingsAux cols tab used, b.2 ∉ used := by
  intro tab
  induction tab with
  | nil =>
    intro used
    exact ⟨List.nodup_nil, by simp [directBindingsAux]⟩
  | cons hd rest ih =>
    intro used
    obtain ⟨target, aliases⟩ := hd
    simp only [directBindingsAux]
    cases hf : findAliasCol cols used aliases with
    | none => exact ih used
    | some m =>
      have hm : m ∉ used := findAliasCol_not_used _ _ _ _ hf
      obtain ⟨ihn, ihdisj⟩ := ih (m :: used)
      refine ⟨?_, ?_⟩
      · simp only [List.map_cons, List.nodup_cons]
        refine ⟨?_, ihn⟩
        intro hmem
        obtain ⟨b, hb, hbe⟩ := List.mem_map.mp hmem
        exact (ihdisj b hb) (hbe ▸ List.mem_cons_self m used)
      · intro b hb
        rcases List.mem_cons.mp hb with rfl | hb'
        · exact hm
        · exact fun hu => (ihdisj b hb') (List.mem_cons_of_mem _ hu)

/-- Claim C2 (corrected).  Within the alias-matching step of one
reconciliation pass, each source column is consumed by at most one
canonical field: the bindings carry pairwise-distinct source columns.  (The
second-phone special case is exempt: it can additionally copy an
already-claimed column into `phone_no2`, see the counterexample.) -/
theorem c2_columnsClaimedOnce (cols : List Str) :
    ((directBindings cols).map Prod.snd).Nodup :=
  (directBindingsAux_nodup cols COLUMN_ALIASES []).1

/-- Claim C2, counterexample: with source columns Contact and Phone, the
alias-matching step binds `phone_no_1` to Phone, `phone_no2` gets no alias
binding, and yet the second-phone special case copies the already-claimed
Phone column into `phone_no2` as well: one source column populates two
canonical fields. -/
theorem c2_counterexample :
    lookupBinding (directBindings colsContactPhone) .phone_no_1 = some (chars "Phone") ∧
    lookupBinding (directBindings colsContactPhone) .phone_no2 = none ∧
    mappedCell colsContactPhone rowFnPhone .phone_no_1 = some (chars "111") ∧
    mappedCell colsContactPhone rowFnPhone .phone_no2 = some (chars "111") := by
  exact ⟨by decide, by decide, by decide, by decide⟩

/-- Claim C3 (confirmed).  With source columns Phone and Mobile,
`phone_no_1` binds to Phone (its alias list names phone before mobile),
`phone_no2` gets no alias binding of its own, and the second-phone special
case maps the second phone-matching source column Mobile into `phone_no2`
for every row. -/
theorem c3_aliasPriority (row : Str → Str) :
    lookupBinding (directBindings colsPhoneMobile) .phone_no_1 = some (chars "Phone") ∧
    lookupBinding (directBindings colsPhoneMobile) .phone_no2 = none ∧
    phoneCols colsPhoneMobile = [chars "Phone", chars "Mobile"] ∧
    mappedCell colsPhoneMobile row .phone_no_1 = some (replNanNaN (row (chars "Phone"))) ∧
    mappedCell colsPhoneMobile row .phone_no2 = some (replNanNaN (row (chars "Mobile"))) := by
  exact ⟨by decide, by decide, by decide, rfl, rfl⟩

/-- Claim C5 (confirmed).  On a row whose only populated field is the
address 12, MG Road, Bangalore 560001, enrichment with a reference index
mapping 560001 to district Bangalore and statename Karnataka fills pincode
560001, city Bangalore and state Karnataka; the pincode extraction itself
does not depend on the index (last conjunct, with the empty index). -/
theorem c5_pincodeRoundTrip :
    enrichRow res5 row5 .pincode = some (chars "560001") ∧
    enrichRow res5 row5 .city = some (chars "Bangalore") ∧
    enrichRow res5 row5 .state = some (chars "Karnataka") ∧
    step4 emptyRes row5 .pincode = some (chars "560001") := by
  exact ⟨by decide, by decide, by decide, by decide⟩

/-- Claim C4 (corrected).  When the stripped area of a row carries a plus
code, the Plus-Code pass leaves latitude and longitude unchanged and writes
the note into the description: exactly Google Plus Code: code when the
description was empty per the emptiness rule, and otherwise the stripped
old description followed by the separator and the note Plus Code: code
(without the word Google - this is where the original claim fails, see the
counterexample). -/
theorem c4_plusCodeFlagging (r : Row) (code : Str)
    (h1 : emptyS (strip (cellStr (r .area))) = false)
    (h2 : extract_plus_code_coordinates (.str (strip (cellStr (r .area))))
        = (chars "PLUS_CODE", code)) :
    step6 r .latitude = r .latitude ∧ step6 r .longitude = r .longitude ∧
    step6 r .description =
      some (if emptyS (strip (cellStr (r .description)))
        then chars "Google Plus Code: " ++ code
        else strip (cellStr (r .description)) ++ chars " | Plus Code: " ++ code) := by
  refine ⟨step6_ne r _ (by simp), step6_ne r _ (by simp), ?_⟩
  unfold step6
  rw [h1, h2]
  simp only [Bool.not_false, if_true]
  rw [ite_row]
  split
  · rw [setF_eval, if_pos rfl]
  · rw [setF_eval, if_pos rfl]

/-- Claim C4, counterexample: with a non-empty description X, the pass
produces X | Plus Code: R9P7+8RC, which does not contain the note
Google Plus Code: R9P7+8RC that the claim requires to be appended. -/
theorem c4_counterexample :
    emptyS (strip (cellStr (rowPlusDescX .description))) = false ∧
    step6 rowPlusDescX .description = some (chars "X | Plus Code: R9P7+8RC") ∧
    isSubstr (chars "Google Plus Code: R9P7+8RC")
      (chars "X | Plus Code: R9P7+8RC") = false := by
  exact ⟨by decide, by decide, by decide⟩

/-- Claim C4, witness: the amended theorem applied to a concrete row with
an empty description. -/
theorem c4_witness :
    step6 rowPlusEmpty .description = some (chars "Google Plus Code: R9P7+8RC") ∧
    step6 rowPlusEmpty .latitude = rowPlusEmpty .latitude := by
  have h := c4_plusCodeFlagging rowPlusEmpty (chars "R9P7+8RC") (by decide) (by decide)
  exact ⟨h.2.2.trans (by decide), h.1⟩

theorem splitComma_ne_nil (l : Str) : splitComma l ≠ [] := by
  induction l with
  | nil => simp [splitComma]
  | cons c rest ih =>
    simp only [splitComma]
    split
    · simp
    · split
      · simp
      · simp

theorem parseTail_area (res : Resolver) (text pin : Str)
    (h : strip (headStr (splitComma text)) ≠ []) :
    (parseTail res text pin).area = strip (headStr (splitComma text)) := by
  obtain ⟨s0, t, hsplit⟩ : ∃ s0 t, splitComma text = s0 :: t := by
    cases hs : splitComma text with
    | nil => exact absurd hs (splitComma_ne_nil text)
    | cons x xs => exact ⟨x, xs, rfl⟩
  unfold parseTail
  dsimp only
  rw [hsplit] at h ⊢
  simp only [headStr] at h ⊢
  simp only [List.map_cons, List.filter_cons]
  rw [if_pos (decide_eq_true h)]

theorem step4b_area_fill (res : Resolver) (r1 : Row) (addr : Str)
    (hcs : emptyS (strip (cellStr (r1 .city))) = true ∨
      emptyS (strip (cellStr (r1 .state))) = true)
    (ha : emptyS (strip (cellStr (r1 .area))) = true)
    (hp : (parse_address_smart res addr).area ≠ []) :
    step4b res r1 addr .area = some (parse_address_smart res addr).area := by
  unfold step4b
  have hcond : (emptyS (strip (cellStr (r1 .city))) ||
      emptyS (strip (cellStr (r1 .state)))) = true := by
    rcases hcs with h | h <;> simp [h]
  simp [ite_row, setF_eval, hcond, ha, hp]

/-- Claim C6 (corrected).  The address-decomposition pass sets an empty
area to the first comma segment of the (stripped) address only when the
pass runs at all, i.e. when city or state is also empty per the emptiness
rule, and only when the parse does not return early through a successful
pincode lookup; under those conditions, and when the first stripped comma
segment is non-empty, area is set to it. -/
theorem c6_areaFromFirstSegment (res : Resolver) (r : Row) (a : Str)
    (haddr : r .address = some a)
    (h1 : emptyS (strip a) = false)
    (h2 : emptyS (strip (cellStr (r .area))) = true)
    (h3 : emptyS (strip (cellStr (r .city))) = true ∨
      emptyS (strip (cellStr (r .state))) = true)
    (h4 : ∀ p, searchWith pinHere none (strip a) = some p →
      Resolver.get_info res p = none)
    (h5 : strip (headStr (splitComma (strip a))) ≠ []) :
    step4 res r .area = some (strip (headStr (splitComma (strip a)))) := by
  have hsa : strip a ≠ [] := by
    intro e
    rw [e] at h1
    simp [emptyS] at h1
  have hnan : a ≠ chars "nan" := by
    intro e
    rw [e] at h1
    revert h1
    decide
  have hNaN : a ≠ chars "NaN" := by
    intro e
    rw [e] at h1
    revert h1
    decide
  have hanil : a ≠ [] := by
    intro e
    rw [e] at h1
    revert h1
    decide
  have hparse : (parse_address_smart res a).area
      = strip (headStr (splitComma (strip a))) := by
    unfold parse_address_smart
    rw [if_neg hsa]
    dsimp only
    cases hsw : searchWith pinHere none (strip a) with
    | none =>
      dsimp only
      exact parseTail_area res (strip a) [] h5
    | some p =>
      dsimp only
      rw [h4 p hsw]
      exact parseTail_area res (strip a) p h5
  unfold step4
  rw [haddr]
  dsimp only
  have hguard : ¬((decide (strip a = []) || decide (a = chars "nan") ||
      decide (a = chars "NaN") || decide (a = [])) = true) := by
    simp [hsa, hnan, hNaN, hanil]
  rw [ite_row, if_neg hguard]
  have e1 : step4a r a .city = r .city := step4a_ne _ _ _ (by simp)
  have e2 : step4a r a .state = r .state := step4a_ne _ _ _ (by simp)
  have e3 : step4a r a .area = r .area := step4a_ne _ _ _ (by simp)
  rw [step4b_area_fill res (step4a r a) a (by rw [e1, e2]; exact h3)
    (by rw [e3]; exact h2) (by rw [hparse]; exact h5), hparse]

/-- Claim C6, counterexample: a row with empty area, non-empty address
whose first comma segment Foo is non-empty, but with city and state already
populated: the pass leaves area untouched, contradicting the claim that
every such row gets its area filled. -/
theorem c6_counterexample :
    emptyS (strip (cellStr (rowCityState .area))) = true ∧
    emptyS (strip (cellStr (rowCityState .address))) = false ∧
    strip (headStr (splitComma (strip (chars "Foo, Bar")))) = chars "Foo" ∧
    step4 emptyRes rowCityState .area = none := by
  exact ⟨by decide, by decide, by decide, by decide⟩

/-- Claim C6, witness: the amended theorem applied to a row holding only
the address Foo, Bar. -/
theorem c6_witness : step4 emptyRes rowAddrOnly .area = some (chars "Foo") := by
  have h := c6_areaFromFirstSegment emptyRes rowAddrOnly (chars "Foo, Bar")
    (by decide) (by decide) (by decide) (Or.inl (by decide))
    (fun p hp => rfl) (by decide)
  exact h.trans (by decide)

theorem char_toNat_ofNat_small (n : Nat) (h : n < 55296) :
    (Char.ofNat n).toNat = n := by
  have hv : n.isValidChar := Or.inl h
  unfold Char.ofNat
  rw [dif_pos hv]
  rfl

theorem upChar_of_not (c : Char) (h : ¬(97 ≤ c.toNat ∧ c.toNat ≤ 122)) :
    upChar c = c := by
  unfold upChar
  rw [if_neg (by simpa using h)]

theorem upChar_toNat_of (c : Char) (h : 97 ≤ c.toNat ∧ c.toNat ≤ 122) :
    (upChar c).toNat = c.toNat - 32 := by
  unfold upChar
  rw [if_pos (by simp [h.1, h.2])]
  exact char_toNat_ofNat_small _ (by omega)

theorem upChar_idem (c : Char) : upChar (upChar c) = upChar c := by
  by_cases h : 97 ≤ c.toNat ∧ c.toNat ≤ 122
  · apply upChar_of_not
    rw [upChar_toNat_of c h]
    omega
  · rw [upChar_of_not c h, upChar_of_not c h]

theorem upper_idem (l : Str) : upper (upper l) = upper l := by
  have h : upChar ∘ upChar = upChar := funext upChar_idem
  unfold upper
  rw [List.map_map, h]

theorem plusHere_prefix (prev : Option Char) (l code : Str)
    (h : plusHere prev l = some code) :
    ∃ rest, l = code ++ rest := by
  unfold plusHere at h
  cases l with
  | nil => exact absurd h (by simp)
  | cons c0 l0 =>
    dsimp only at h
    split at h
    · split at h
      · rename_i rest2 hdw
        split at h
        · injection h with hcode
          refine ⟨rest2.dropWhile alnumU, ?_⟩
          rw [← hcode]
          conv_lhs =>
            rw [← List.takeWhile_append_dropWhile (p := alnumU) (l := c0 :: l0)]
          rw [hdw]
          conv_lhs =>
            rw [show rest2 = rest2.takeWhile alnumU ++ rest2.dropWhile alnumU from
              (List.takeWhile_append_dropWhile alnumU rest2).symm]
          simp
        · exact absurd h (by simp)
      · exact absurd h (by simp)
    · exact absurd h (by simp)

theorem alnumU_not_low (c : Char) (hc : alnumU c = true) : lowAlphaC c = false := by
  simp only [alnumU, Bool.or_eq_true, Bool.and_eq_true, decide_eq_true_eq] at hc
  cases hlow : lowAlphaC c
  · rfl
  · exfalso
    simp only [lowAlphaC, Bool.and_eq_true, decide_eq_true_eq] at hlow
    omega

theorem plusHere_chars (prev : Option Char) (l code : Str)
    (h : plusHere prev l = some code) :
    ∀ c ∈ code, lowAlphaC c = false := by
  unfold plusHere at h
  cases l with
  | nil => exact absurd h (by simp)
  | cons c0 l0 =>
    dsimp only at h
    split at h
    · split at h
      · rename_i rest2 hdw
        split at h
        · injection h with hcode
          intro c hc
          rw [← hcode] at hc
          rcases List.mem_append.mp hc with hc1 | hc2
          · exact alnumU_not_low c (List.mem_takeWhile_imp hc1)
          · rcases List.mem_cons.mp hc2 with rfl | hc3
            · decide
            · exact alnumU_not_low c (List.mem_takeWhile_imp hc3)
        · exact absurd h (by simp)
      · exact absurd h (by simp)
    · exact absurd h (by simp)

theorem prefixB_append (p t : Str) : prefixB p (p ++ t) = true := by
  induction p with
  | nil => rfl
  | cons a as ih => simp [prefixB, ih]

theorem isSubstr_of_prefix_drop (p l : Str) :
    ∀ i, prefixB p (l.drop i) = true → isSubstr p l = true := by
  induction l with
  | nil =>
    intro i h
    rw [List.drop_nil] at h
    simpa [isSubstr] using h
  | cons c rest ih =>
    intro i h
    cases i with
    | zero =>
      rw [List.drop_zero] at h
      simp [isSubstr, h]
    | succ k =>
      have hk := ih k (by simpa using h)
      simp [isSubstr, hk]

/-- Claim C10 (confirmed).  The plus-code extractor uppercases the whole
text before matching: a lowercase plus code is detected (first conjunct);
the extractor depends only on the uppercased text (second conjunct); and
any returned code is a substring of the uppercased text containing no
lowercase letter, hence the uppercased form of the matched substring rather
than the raw one (third conjunct). -/
theorem c10_plusCodeUppercase :
    extract_plus_code_coordinates (.str (chars "r9p7+8rc"))
      = (chars "PLUS_CODE", chars "R9P7+8RC") ∧
    (∀ s : Str, extract_plus_code_coordinates (.str s)
      = extract_plus_code_coordinates (.str (upper s))) ∧
    (∀ s code, searchWith plusHere none (upper s) = some code →
      isSubstr code (upper s) = true ∧ ∀ c ∈ code, lowAlphaC c = false) := by
  refine ⟨by decide, ?_, ?_⟩
  · intro s
    simp only [extract_plus_code_coordinates]
    rw [upper_idem]
  · intro s code h
    have fm := searchWith_firstMatch plusHere (fun p => rfl) (upper s)
    rcases fm with ⟨hn, _⟩ | ⟨i, a, hs, hm, _⟩
    · rw [h] at hn
      exact absurd hn (by simp)
    · rw [h] at hs
      injection hs with hac
      subst hac
      have hm' : plusHere (prevAt (upper s) i) ((upper s).drop i) = some code := hm
      obtain ⟨rest, hrest⟩ := plusHere_prefix _ _ _ hm'
      constructor
      · apply isSubstr_of_prefix_drop code (upper s) i
        rw [hrest]
        exact prefixB_append code rest
      · exact plusHere_chars _ _ _ hm'
example : parse_address_smart ⟨[], [chars "new-delhi"], [chars "delhi"]⟩ (chars " MG Road, new-delhi  Delhi ")
    = ⟨chars "New-Delhi", chars "Delhi", [], chars "MG Road"⟩ := by decide
example : title (chars "x1y") = chars "X1Y" := by decide
example : splitSeps (chars " a b ") = [[], chars "a", chars "b", []] := by decide
example : splitSeps [] = [[]] := by decide
example : splitComma (chars ",a,") = [[], chars "a", []] := by decide
